import Mathlib

/-
Verification of the bounded-concurrency admission controller and
child-process output pipeline of the gemini-cli-gateway repository.

The embedding follows the source files:
  - services/gemini.service.js : GeminiService with createProcessBuffered
    and the private argument builder (modelled here as buildArgs).
  - controllers/chat.controller.js : handleStandardChat (buffered path)
    and handleStreamChat (streaming path).

The Node.js runtime is modelled as a single-threaded event system.  A
request execution is a list of events (stdout data, stderr data, timer
fire, spawn error, close, client disconnect) folded through a step
function that is a line-by-line translation of the registered handlers.
Validity predicates encode the runtime guarantees Node provides for
child processes: exactly one close event per child, close is the final
event, a spawn error precedes close, a spawn-failed child produces no
stdout data, and a timer fires only if it was not cleared first.
-/

namespace GeminiGateway

/-! ## JavaScript value helpers -/

/-- Whitespace characters removed by the JavaScript String.trim method
(the common ASCII subset: space, tab, line feed, carriage return,
vertical tab, form feed). -/
def jsWS (c : Char) : Bool :=
  c = ' ' || c = '\t' || c = '\n' || c = '\r' || c = Char.ofNat 11 || c = Char.ofNat 12

/-- Trim of a character list: drop whitespace from both ends. -/
def jsTrimList (cs : List Char) : List Char :=
  ((cs.dropWhile jsWS).reverse.dropWhile jsWS).reverse

/-- Model of the JavaScript trim method on strings. -/
def jsTrim (s : String) : String :=
  String.mk (jsTrimList s.data)

/-- JavaScript truthiness of a string value: every string except the
empty string is truthy. -/
def jsTruthy (s : String) : Bool :=
  s != ""

/-! ## Configuration (config/app.config.js) -/

/-- Identifiers of the statically configured models
(AVAILABLE_MODELS in config/app.config.js). -/
def AVAILABLE_MODEL_IDS : List String :=
  ["gemini-2.5-flash-lite", "gemini-2.5-flash"]

/-- Default model identifier (config.gemini.DEFAULT_MODEL). -/
def DEFAULT_MODEL : String := "gemini-2.5-flash-lite"

/-! ## ArgumentBuilder (services/gemini.service.js, method _buildArgs) -/

/-- One conversation turn: a role string and a content string. -/
structure ChatMsg where
  role : String
  content : String
deriving DecidableEq

/-- The dynamically typed messages argument of _buildArgs: the code
distinguishes arrays (Array.isArray) from every other value, which is
coerced by the String constructor.  We model the values that reach the
builder from the controller: undefined, a plain string, or an array of
role and content records. -/
inductive MsgsVal where
  | undef : MsgsVal
  | str : String → MsgsVal
  | arr : List ChatMsg → MsgsVal
deriving DecidableEq

/-- Role label selection of _buildArgs lines 60 to 63: a User default,
then the three explicit cases for system, assistant and user. -/
def roleLabel (role : String) : String :=
  if role = "system" then "System Instruction"
  else if role = "assistant" then "Model"
  else if role = "user" then "User"
  else "User"

/-- The String coercion applied by the legacy branch of _buildArgs:
String(undefined) is the text undefined, String(s) is s for a string s.
The array case never reaches this branch in the code. -/
def jsStringOf : MsgsVal → String
  | .undef => "undefined"
  | .str s => s
  | .arr _ => ""

/-- Translation of _buildArgs (gemini.service.js lines 55 to 76): build
the flattened prompt (map each turn to label colon content joined by a
blank line for arrays, String coercion otherwise), then the argument
vector consisting of the prompt, the -m flag with the model, and the
streaming output flags exactly when the stream parameter is truthy. -/
def buildArgs (messages : MsgsVal) (model : String) (stream : Bool) : List String :=
  let fullPrompt :=
    match messages with
    | .arr msgs => String.intercalate "\n\n" (msgs.map fun m => roleLabel m.role ++ ": " ++ m.content)
    | v => jsStringOf v
  [fullPrompt, "-m", model] ++ (if stream then ["-o", "stream-json"] else [])

/-- The system field of the request body embedded as a builder input:
an absent field is the undefined value, a present field is its string. -/
def sysVal : Option String → MsgsVal
  | none => .undef
  | some s => .str s

/-- The argument vector produced by the controller call sites
(chat.controller.js lines 92 and 176).  Both sites invoke
createProcessBuffered with four arguments, system, prompt,
selectedModel and a stream flag, while the service method
(gemini.service.js line 86) declares three parameters, messages, model
and isStream.  JavaScript therefore binds messages to system, model to
prompt, isStream to selectedModel, and drops the fourth argument; the
service then calls _buildArgs with that binding.  The fourth argument
is kept here as the unused parameter to mirror the call shape. -/
def controllerCallArgs (system : Option String) (prompt selectedModel : String)
    (streamFlag : Bool) : List String :=
  let _ := streamFlag
  buildArgs (sysVal system) prompt (jsTruthy selectedModel)

/-- Flattened prompt as the specification words describe it: each turn
prefixed with its role label, System Instruction for system, User for
user, Model for assistant, joined with a blank line.  The
specification assigns no label to any other role, so the label of an
unknown role is left empty here; the refinement theorem assumes the
roles of the data model. -/
def specRoleLabel (role : String) : String :=
  if role = "system" then "System Instruction"
  else if role = "user" then "User"
  else if role = "assistant" then "Model"
  else ""

/-- Prompt flattening as described by the specification of the
ArgumentBuilder component. -/
def specFlattenPrompt (msgs : List ChatMsg) : String :=
  String.intercalate "\n\n" (msgs.map fun m => specRoleLabel m.role ++ ": " ++ m.content)

/-! ## AdmissionQueue (gemini.service.js, createProcessBuffered)

The shared mutable service state consists of the activeRequests
counter, the requestQueue array of parked resolver callbacks, and the
pending list of resolvers that have been called but whose awaiting
continuation has not run yet (the microtask queue).  Waiters are named
by arrival stamps: nextId is the stamp of the next arriving request.

Event-loop justification of the guards: request arrivals and child
close events are macrotasks, which Node runs only once the microtask
queue is empty, so those steps require pending to be empty; the
continuation of an awaited promise is a microtask, so a wake step runs
before any further macrotask. -/

/-- State of the GeminiService singleton relevant to admission. -/
structure Svc where
  active : Int
  queue : List Nat
  pending : List Nat
  nextId : Nat
deriving DecidableEq

/-- Initial service state (constructor, gemini.service.js lines 48 to 53). -/
def svcInit : Svc := ⟨0, [], [], 0⟩

/-- Labels of the admission-controller transitions.  arriveGrant is a
call of createProcessBuffered that finds a free slot and increments
activeRequests at once; park is a call that finds none and pushes its
resolver; finishNone and finishWake are the onFinish close handler with
an empty and a nonempty queue; wake is the resumed continuation of a
parked caller, which increments activeRequests and spawns. -/
inductive SvcLabel where
  | arriveGrant : Nat → SvcLabel
  | park : Nat → SvcLabel
  | finishNone : SvcLabel
  | finishWake : Nat → SvcLabel
  | wake : Nat → SvcLabel
deriving DecidableEq

/-- One transition of the admission controller with limit N.  Guards
mirror gemini.service.js lines 86 to 116 plus the event-loop rules
described above.  The decrement in onFinish is unguarded in the code,
hence active is an integer and the finish steps subtract freely. -/
def svcStep (N : Nat) : SvcLabel → Svc → Option Svc
  | .arriveGrant w, s =>
      if s.pending = [] ∧ s.active < (N : Int) ∧ w = s.nextId then
        some { s with active := s.active + 1, nextId := s.nextId + 1 }
      else none
  | .park w, s =>
      if s.pending = [] ∧ (N : Int) ≤ s.active ∧ w = s.nextId then
        some { s with queue := s.queue ++ [s.nextId], nextId := s.nextId + 1 }
      else none
  | .finishNone, s =>
      if s.pending = [] ∧ s.queue = [] then
        some { s with active := s.active - 1 }
      else none
  | .finishWake w, s =>
      if s.pending = [] ∧ s.queue.head? = some w then
        some { s with active := s.active - 1, queue := s.queue.tail, pending := [w] }
      else none
  | .wake w, s =>
      if s.pending.head? = some w then
        some { s with active := s.active + 1, pending := s.pending.tail }
      else none

/-- Run a trace of admission-controller transitions from a state. -/
def runSvcFrom (N : Nat) (s : Svc) : List SvcLabel → Option Svc
  | [] => some s
  | l :: tr =>
      match svcStep N l s with
      | none => none
      | some s2 => runSvcFrom N s2 tr

/-- Run a trace from the initial service state. -/
def runSvc (N : Nat) (tr : List SvcLabel) : Option Svc :=
  runSvcFrom N svcInit tr

/-- Demonstration trace with limit two: requests 0 and 1 are granted
at once, request 2 parks, the later request 3 parks behind it, and the
two finishing processes wake 2 and then 3 in arrival order. -/
def fifoDemoTrace : List SvcLabel :=
  [SvcLabel.arriveGrant 0, SvcLabel.arriveGrant 1, SvcLabel.park 2,
    SvcLabel.park 3, SvcLabel.finishWake 2, SvcLabel.wake 2,
    SvcLabel.finishWake 3, SvcLabel.wake 3]

/-- Arrival stamps of the park transitions of a trace, in order. -/
def parks (tr : List SvcLabel) : List Nat :=
  tr.filterMap fun l => match l with
    | .park w => some w
    | _ => none

/-- Arrival stamps of the wake transitions of a trace, in order; a wake
is the moment a parked caller is granted its slot and starts its
process. -/
def wakes (tr : List SvcLabel) : List Nat :=
  tr.filterMap fun l => match l with
    | .wake w => some w
    | _ => none

/-! ## ProcessLifecycleManager handlers registered by the service

createProcessBuffered registers onFinish on the close event of the
child (line 108) and an intentionally empty handler on the error event
(lines 109 to 113).  The slot release, the activeRequests decrement,
therefore runs exactly when a close event is delivered. -/

/-- Events observable on one spawned child process. -/
inductive ChildEv where
  | spawnErr : String → ChildEv
  | outD : String → ChildEv
  | errD : String → ChildEv
  | closeEv : Option Int → ChildEv
deriving DecidableEq

/-- Whether a child event is the close event. -/
def isCloseChild : ChildEv → Bool
  | .closeEv _ => true
  | _ => false

/-- Observer state for one child: how many times the service released
the slot of this child. -/
structure ChildObs where
  releases : Nat
deriving DecidableEq

/-- Dispatch of the handlers the service registers on a child: the
close handler onFinish releases the slot, the error handler has an
empty body, the data handlers of the child are not registered by the
service at all. -/
def childHandle (o : ChildObs) : ChildEv → ChildObs
  | .closeEv _ => { o with releases := o.releases + 1 }
  | .spawnErr _ => o
  | .outD _ => o
  | .errD _ => o

/-- Number of slot releases performed by the service handlers over the
event trace of one child. -/
def releasesOf (tr : List ChildEv) : Nat :=
  (tr.foldl childHandle ⟨0⟩).releases

/-- Runtime guarantee of Node for every spawned child, including a
child whose spawn fails: exactly one close event is delivered, it is
the final event of the child, and a spawn error is delivered before it. -/
def ValidChildTrace (tr : List ChildEv) : Prop :=
  ∃ pre code, tr = pre ++ [ChildEv.closeEv code] ∧ pre.countP isCloseChild = 0

/-! ## ResponseAggregator (chat.controller.js, handleStandardChat)

The buffered handler is a fold over the events of one request.  The
sent list records the responses actually delivered to the client: the
HTTP transport delivers only the first response of a request, any later
send raises an error inside Node and reaches no one.  The attempts
list records every send call the handler makes. -/

/-- Responses the buffered handler can send. -/
inductive BufResp where
  | spawnFail : String → BufResp
  | timeout504 : BufResp
  | cliError : String → BufResp
  | success : String → BufResp
deriving DecidableEq

/-- State of one buffered request handler. -/
structure BufSt where
  output : String
  errorOut : String
  isTimedOut : Bool
  timerCleared : Bool
  killed : Bool
  sent : List BufResp
  attempts : List BufResp
deriving DecidableEq

/-- Initial handler state right after the child is spawned. -/
def bufInit : BufSt := ⟨"", "", false, false, false, [], []⟩

/-- A send through the response object: always recorded as an attempt,
delivered only when nothing was sent before. -/
def sendResp (r : BufResp) (st : BufSt) : BufSt :=
  { st with
    attempts := st.attempts ++ [r],
    sent := if st.sent.isEmpty then [r] else st.sent }

/-- Events of one buffered request: spawn error, watchdog timer fire,
stdout data, stderr data, close with exit code (none models the null
code of a killed or spawn-failed child). -/
inductive BufEvent where
  | spawnErrorEv : String → BufEvent
  | timerFire : BufEvent
  | outData : String → BufEvent
  | errData : String → BufEvent
  | closeEv : Option Int → BufEvent
deriving DecidableEq

/-- Whether a buffered event is the close event. -/
def isCloseBuf : BufEvent → Bool
  | .closeEv _ => true
  | _ => false

/-- Whether a buffered event is the timer firing. -/
def isTimerFire : BufEvent → Bool
  | .timerFire => true
  | _ => false

/-- Whether a buffered event is a spawn error. -/
def isSpawnErrBuf : BufEvent → Bool
  | .spawnErrorEv _ => true
  | _ => false

/-- One step of handleStandardChat (chat.controller.js lines 95 to
141).  The spawn error handler sends a 500 only if no headers were
sent; the timer callback records the timeout, kills the child and
sends the 504 if no headers were sent; the data handlers accumulate;
the close handler clears the timer, returns at once when the timeout
already answered, and otherwise sends the CLI error for a nonzero or
null code and the trimmed output on code zero.  The two sends of the
close handler carry no headersSent check in the code; delivery of at
most one response is the transport rule inside sendResp. -/
def bufStep (st : BufSt) (e : BufEvent) : BufSt :=
  match e with
  | .spawnErrorEv msg =>
      if st.sent.isEmpty then sendResp (.spawnFail msg) st else st
  | .timerFire =>
      let st2 := { st with isTimedOut := true, killed := true }
      if st2.sent.isEmpty then sendResp .timeout504 st2 else st2
  | .outData s => { st with output := st.output ++ s }
  | .errData s => { st with errorOut := st.errorOut ++ s }
  | .closeEv code =>
      let st2 := { st with timerCleared := true }
      if st2.isTimedOut then st2
      else if code ≠ some 0 then sendResp (.cliError st2.errorOut) st2
      else sendResp (.success (jsTrim st2.output)) st2

/-- Run the buffered handler over the events of one request. -/
def runBuf (tr : List BufEvent) : BufSt :=
  tr.foldl bufStep bufInit

/-- Accumulation of the stdout chunks of a buffered trace onto a
string, exactly as the data handler concatenates them. -/
def outsFrom (a : String) : List BufEvent → String
  | [] => a
  | .outData s :: tr => outsFrom (a ++ s) tr
  | _ :: tr => outsFrom a tr

/-- The accumulated stdout buffer of a buffered trace. -/
def outsOf (tr : List BufEvent) : String :=
  outsFrom "" tr

/-- Accumulation of the stderr chunks of a buffered trace onto a
string. -/
def errsFrom (a : String) : List BufEvent → String
  | [] => a
  | .errData s :: tr => errsFrom (a ++ s) tr
  | _ :: tr => errsFrom a tr

/-- The accumulated stderr buffer of a buffered trace. -/
def errsOf (tr : List BufEvent) : String :=
  errsFrom "" tr

/-- Runtime validity of a buffered request trace: exactly one close
event and it is last, the timer fires at most once (a single-shot
timer), and a spawn error is delivered at most once. -/
def ValidBuf (tr : List BufEvent) : Prop :=
  ∃ pre code, tr = pre ++ [BufEvent.closeEv code] ∧
    pre.countP isCloseBuf = 0 ∧ pre.countP isTimerFire ≤ 1 ∧ pre.countP isSpawnErrBuf ≤ 1

/-! ## StreamRelay (chat.controller.js, handleStreamChat)

The streaming handler is a fold over request events.  The chunks list
records the server-sent events actually delivered: a write after the
response was ended, or after the client socket disconnected, is
discarded by the transport.  The attempts list records every write
call.  The handler registers no watchdog timer: no timer event exists
in its event alphabet. -/

/-- Server-sent events written by the streaming handler. -/
inductive SSE where
  | dataEv : String → SSE
  | doneEv : SSE
  | errorEvSSE : String → SSE
deriving DecidableEq

/-- State of one streaming request handler. -/
structure StrSt where
  buffer : List Char
  chunks : List SSE
  attempts : List SSE
  ended : Bool
  disconnected : Bool
  killed : Bool
deriving DecidableEq

/-- Initial streaming state right after the child is spawned. -/
def strInit : StrSt := ⟨[], [], [], false, false, false⟩

/-- A write on the event channel: always an attempt, delivered only
while the response is open and the client connected. -/
def sseWrite (e : SSE) (st : StrSt) : StrSt :=
  { st with
    attempts := st.attempts ++ [e],
    chunks := if st.ended || st.disconnected then st.chunks else st.chunks ++ [e] }

/-- The res.end call: closes the channel. -/
def sseEnd (st : StrSt) : StrSt :=
  { st with ended := true }

/-- The while loop of the stdout data handler (lines 194 to 205): split
the buffer at every newline; each complete line is trimmed; the
remainder after the last newline is kept.  The accumulator cur holds
the characters of the current line in reverse. -/
def scanLines (cur : List Char) : List Char → List String × List Char
  | [] => ([], cur.reverse)
  | c :: rest =>
      if c = '\n' then
        let r := scanLines [] rest
        (String.mk (jsTrimList cur.reverse) :: r.1, r.2)
      else
        scanLines (c :: cur) rest

/-- Emission of the extracted lines: a line is written as a data event
only when it is truthy, that is nonempty after trimming (the if line
check of the code). -/
def writeDataLines : List String → StrSt → StrSt
  | [], st => st
  | l :: ls, st => writeDataLines ls (if jsTruthy l then sseWrite (.dataEv l) st else st)

/-- Events of one streaming request: spawn error, stdout data, stderr
data, close, client disconnect. -/
inductive StrEvent where
  | spawnErrEv : String → StrEvent
  | outData : String → StrEvent
  | errData : String → StrEvent
  | closeEv : Option Int → StrEvent
  | reqCloseEv : StrEvent
deriving DecidableEq

/-- Whether a streaming event is the close event. -/
def isCloseStr : StrEvent → Bool
  | .closeEv _ => true
  | _ => false

/-- Whether a streaming event is a spawn error. -/
def isSpawnErrStr : StrEvent → Bool
  | .spawnErrEv _ => true
  | _ => false

/-- Whether a streaming event is a stdout chunk. -/
def isOutDataStr : StrEvent → Bool
  | .outData _ => true
  | _ => false

/-- Whether a streaming event is a client disconnect. -/
def isReqCloseStr : StrEvent → Bool
  | .reqCloseEv => true
  | _ => false

/-- One step of handleStreamChat (chat.controller.js lines 179 to
226).  The spawn error handler writes the error event and ends the
response; the stdout handler appends the chunk to the buffer, extracts
every complete line and writes the nonempty trimmed ones as data
events; the stderr handler only logs; the close handler writes the
done event and ends the response; the request close handler marks the
disconnect and kills the child unless already killed. -/
def strStep (st : StrSt) (e : StrEvent) : StrSt :=
  match e with
  | .spawnErrEv msg => sseEnd (sseWrite (.errorEvSSE msg) st)
  | .outData s =>
      let r := scanLines [] (st.buffer ++ s.data)
      writeDataLines r.1 { st with buffer := r.2 }
  | .errData _ => st
  | .closeEv _ => sseEnd (sseWrite .doneEv st)
  | .reqCloseEv =>
      let st2 := { st with disconnected := true }
      if st2.killed then st2 else { st2 with killed := true }

/-- Run the streaming handler over the events of one request. -/
def runStr (tr : List StrEvent) : StrSt :=
  tr.foldl strStep strInit

/-- Concatenation of the stdout bytes of a streaming trace. -/
def outBytes (tr : List StrEvent) : List Char :=
  (tr.filterMap fun e => match e with
    | .outData s => some s.data
    | _ => none).flatten

/-- Spawn error messages of a streaming trace, in order. -/
def spawnMsgs (tr : List StrEvent) : List String :=
  tr.filterMap fun e => match e with
    | .spawnErrEv m => some m
    | _ => none

/-- Runtime validity of a streaming request trace: exactly one close
event and it is last, a spawn error is delivered at most once, and a
spawn-failed child produces no stdout data. -/
def ValidStream (tr : List StrEvent) : Prop :=
  ∃ pre code, tr = pre ++ [StrEvent.closeEv code] ∧
    pre.countP isCloseStr = 0 ∧ pre.countP isSpawnErrStr ≤ 1 ∧
    (pre.countP isSpawnErrStr = 1 → pre.countP isOutDataStr = 0)

/-! ## Lemmas and claim theorems -/

/-- The slot releases performed by the service handlers count exactly
the close events of the child trace: the error handler releases
nothing. -/
theorem foldl_childHandle_releases (tr : List ChildEv) (o : ChildObs) :
    (tr.foldl childHandle o).releases = o.releases + tr.countP isCloseChild := by
  induction tr generalizing o with
  | nil => simp [List.countP_nil]
  | cons e tr ih =>
      cases e <;> (simp [childHandle, ih, List.countP_cons, isCloseChild]; try omega)

/-- C2: for every granted slot, the matching release runs exactly once.
The service attaches the activeRequests decrement to the close event of
the child only, and leaves the error handler empty; since the runtime
delivers exactly one close event per spawned child, also when the spawn
fails, the slot of every granted request is released exactly once and
never twice, and a spawn failure neither leaks the slot nor releases it
more than once. -/
theorem c2_release_exactly_once (tr : List ChildEv) (h : ValidChildTrace tr) :
    releasesOf tr = 1 := by
  obtain ⟨pre, code, rfl, hc⟩ := h
  show (List.foldl childHandle ⟨0⟩ (pre ++ [ChildEv.closeEv code])).releases = 1
  rw [List.foldl_append]
  simp [childHandle, foldl_childHandle_releases, hc]

/-- C2 witness: the canonical spawn-failure trace, the error event
followed by the close event with a null code, is a valid child trace
and releases the slot exactly once. -/
theorem c2_release_exactly_once_witness :
    ValidChildTrace [ChildEv.spawnErr "spawn gemini ENOENT", ChildEv.closeEv none] ∧
      releasesOf [ChildEv.spawnErr "spawn gemini ENOENT", ChildEv.closeEv none] = 1 :=
  ⟨⟨[ChildEv.spawnErr "spawn gemini ENOENT"], none, rfl, by decide⟩,
    c2_release_exactly_once _ ⟨[ChildEv.spawnErr "spawn gemini ENOENT"], none, rfl, by decide⟩⟩

/-- C5: both controller call sites invoke createProcessBuffered with
four arguments against a three-parameter signature; therefore the argv
handed to spawn has the system field as its prompt text (the text
undefined when the field is absent), the user prompt as the value of
the -m flag, and, because the validated model identifier is a nonempty
string bound to the isStream parameter, the stream-json output flags on
every request, for a buffered call site (flag false) and the streaming
one (flag true) alike. -/
theorem c5_argument_shift (system : Option String) (prompt selectedModel : String)
    (flag : Bool) (h : selectedModel ∈ AVAILABLE_MODEL_IDS) :
    controllerCallArgs system prompt selectedModel flag =
      [jsStringOf (sysVal system), "-m", prompt, "-o", "stream-json"] ∧
      jsStringOf (sysVal none) = "undefined" := by
  have htruthy : jsTruthy selectedModel = true := by
    simp only [AVAILABLE_MODEL_IDS, List.mem_cons, List.mem_singleton] at h
    rcases h with rfl | rfl | h
    · decide
    · decide
    · simp at h
  refine ⟨?_, rfl⟩
  cases system <;> simp [controllerCallArgs, buildArgs, sysVal, jsStringOf, htruthy]

/-- C5 witness: a buffered request with no system field, prompt Hello
and the default model produces the shifted argv concretely. -/
theorem c5_argument_shift_witness :
    "gemini-2.5-flash-lite" ∈ AVAILABLE_MODEL_IDS ∧
      controllerCallArgs none "Hello" "gemini-2.5-flash-lite" false =
        ["undefined", "-m", "Hello", "-o", "stream-json"] :=
  ⟨by decide, (c5_argument_shift none "Hello" "gemini-2.5-flash-lite" false (by decide)).1⟩

/-- C10: the argument builder maps a conversation array to the
flattened prompt the specification describes, each turn prefixed by
its role label and joined with a blank line, followed by the -m model
flag and the streaming output flags exactly when streaming is
requested, and coerces a non-array legacy input to its text
representation. -/
theorem c10_buildArgs_spec (msgs : List ChatMsg) (model : String) (stream : Bool)
    (hroles : ∀ m ∈ msgs, m.role = "system" ∨ m.role = "user" ∨ m.role = "assistant") :
    buildArgs (.arr msgs) model stream =
      [specFlattenPrompt msgs, "-m", model] ++ (if stream then ["-o", "stream-json"] else []) ∧
    (∀ s, buildArgs (.str s) model stream =
      [s, "-m", model] ++ (if stream then ["-o", "stream-json"] else [])) := by
  constructor
  · have hmap : msgs.map (fun m => roleLabel m.role ++ ": " ++ m.content) =
        msgs.map (fun m => specRoleLabel m.role ++ ": " ++ m.content) := by
      refine List.map_congr_left fun m hm => ?_
      rcases hroles m hm with h | h | h <;> simp [roleLabel, specRoleLabel, h]
    simp [buildArgs, specFlattenPrompt, hmap]
  · intro s
    simp [buildArgs, jsStringOf]

/-- C10 witness: the concrete conversation of the specification, a
system turn Be brief and a user turn Hi with the default model, builds
the flattened prompt text with the blank-line separator and the model
flag. -/
theorem c10_buildArgs_spec_witness :
    (∀ m ∈ [ChatMsg.mk "system" "Be brief", ChatMsg.mk "user" "Hi"],
      m.role = "system" ∨ m.role = "user" ∨ m.role = "assistant") ∧
    buildArgs (.arr [ChatMsg.mk "system" "Be brief", ChatMsg.mk "user" "Hi"])
        "gemini-2.5-flash-lite" false =
      ["System Instruction: Be brief\n\nUser: Hi", "-m", "gemini-2.5-flash-lite"] :=
  ⟨by decide,
    ((c10_buildArgs_spec [ChatMsg.mk "system" "Be brief", ChatMsg.mk "user" "Hi"]
      "gemini-2.5-flash-lite" false (by decide)).1).trans (by decide)⟩

/-- One admission-controller transition preserves the slot bound: the
number of held slots plus the number of waiters already granted but not
yet resumed never exceeds the limit. -/
theorem svcStep_bound {N : Nat} {l : SvcLabel} {s s2 : Svc}
    (h : svcStep N l s = some s2)
    (hs : s.active + s.pending.length ≤ (N : Int)) :
    s2.active + s2.pending.length ≤ (N : Int) := by
  cases l with
  | arriveGrant w =>
      simp only [svcStep] at h
      split at h
      · rename_i hc
        obtain ⟨hp, hlt, hw⟩ := hc
        cases h
        simp [hp] at hs ⊢
        omega
      · cases h
  | park w =>
      simp only [svcStep] at h
      split at h
      · cases h
        simpa using hs
      · cases h
  | finishNone =>
      simp only [svcStep] at h
      split at h
      · cases h
        simp
        omega
      · cases h
  | finishWake w =>
      simp only [svcStep] at h
      split at h
      · rename_i hc
        obtain ⟨hp, hq⟩ := hc
        cases h
        simp [hp] at hs ⊢
        omega
      · cases h
  | wake w =>
      simp only [svcStep] at h
      split at h
      · rename_i hc
        cases h
        obtain ⟨p, hp⟩ : ∃ p, s.pending = w :: p := by
          cases hpend : s.pending with
          | nil => rw [hpend] at hc; cases hc
          | cons v p =>
              rw [hpend] at hc
              simp at hc
              exact ⟨p, by rw [hc]⟩
        simp [hp] at hs ⊢
        omega
      · cases h

/-- Running a trace from a state preserves the slot bound. -/
theorem runSvcFrom_bound {N : Nat} {tr : List SvcLabel} {s s2 : Svc}
    (h : runSvcFrom N s tr = some s2)
    (hs : s.active + s.pending.length ≤ (N : Int)) :
    s2.active + s2.pending.length ≤ (N : Int) := by
  induction tr generalizing s with
  | nil => cases h; exact hs
  | cons l tr ih =>
      simp only [runSvcFrom] at h
      cases hstep : svcStep N l s with
      | none => rw [hstep] at h; cases h
      | some s1 =>
          rw [hstep] at h
          exact ih h (svcStep_bound hstep hs)

/-- C1: in every state the admission controller can reach from its
initial state through any sequence of arrivals, parks, process
finishes and waiter resumptions, the activeRequests counter, the
number of held slots and hence of simultaneously running child
processes, never exceeds the configured limit N. -/
theorem c1_slot_bound (N : Nat) (tr : List SvcLabel) (s : Svc)
    (h : runSvc N tr = some s) : s.active ≤ (N : Int) := by
  have hb := runSvcFrom_bound h (by simp [svcInit])
  have hlen : (0 : Int) ≤ s.pending.length := by positivity
  omega

/-- C1 witness: the limit two scenario with two grants, two parked
requests and the full drain of the queue reaches a state whose counter
respects the bound. -/
theorem c1_slot_bound_witness :
    runSvc 2 fifoDemoTrace = some ⟨2, [], [], 4⟩ ∧
      (Svc.mk 2 [] [] 4).active ≤ (2 : Int) :=
  ⟨by decide, c1_slot_bound 2 fifoDemoTrace ⟨2, [], [], 4⟩ (by decide)⟩

/-- The wakes of a cons trace split into the wakes of the head and of
the tail. -/
theorem wakes_cons (l : SvcLabel) (tr : List SvcLabel) :
    wakes (l :: tr) = wakes [l] ++ wakes tr := by
  cases l <;> simp [wakes]

/-- The parks of a cons trace split into the parks of the head and of
the tail. -/
theorem parks_cons (l : SvcLabel) (tr : List SvcLabel) :
    parks (l :: tr) = parks [l] ++ parks tr := by
  cases l <;> simp [parks]

/-- One transition keeps the FIFO ledger balanced: the waiters woken by
the step followed by the new resolved-pending list and the new queue
equal the old resolved-pending list and queue extended by the newly
parked waiters. -/
theorem svcStep_fifo {N : Nat} {l : SvcLabel} {s s2 : Svc}
    (h : svcStep N l s = some s2) :
    wakes [l] ++ s2.pending ++ s2.queue = s.pending ++ s.queue ++ parks [l] := by
  cases l with
  | arriveGrant w =>
      simp only [svcStep] at h
      split at h
      · cases h; simp [wakes, parks]
      · cases h
  | park w =>
      simp only [svcStep] at h
      split at h
      · rename_i hc
        cases h
        simp [wakes, parks, hc.2.2]
      · cases h
  | finishNone =>
      simp only [svcStep] at h
      split at h
      · rename_i hc
        cases h
        simp [wakes, parks, hc.2]
      · cases h
  | finishWake w =>
      simp only [svcStep] at h
      split at h
      · rename_i hc
        cases h
        obtain ⟨q, hq⟩ : ∃ q, s.queue = w :: q := by
          cases hqq : s.queue with
          | nil => rw [hqq] at hc; cases hc.2
          | cons v q =>
              rw [hqq] at hc
              have := hc.2
              simp at this
              exact ⟨q, by rw [this]⟩
        simp [wakes, parks, hc.1, hq]
      · cases h
  | wake w =>
      simp only [svcStep] at h
      split at h
      · rename_i hc
        cases h
        obtain ⟨p, hp⟩ : ∃ p, s.pending = w :: p := by
          cases hpp : s.pending with
          | nil => rw [hpp] at hc; cases hc
          | cons v p =>
              rw [hpp] at hc
              simp at hc
              exact ⟨p, by rw [hc]⟩
        simp [wakes, parks, hp]
      · cases h

/-- Running a trace keeps the FIFO ledger balanced. -/
theorem runSvcFrom_fifo {N : Nat} {tr : List SvcLabel} {s s2 : Svc}
    (h : runSvcFrom N s tr = some s2) :
    wakes tr ++ s2.pending ++ s2.queue = s.pending ++ s.queue ++ parks tr := by
  induction tr generalizing s with
  | nil => cases h; simp [wakes, parks]
  | cons l tr ih =>
      simp only [runSvcFrom] at h
      cases hstep : svcStep N l s with
      | none => rw [hstep] at h; cases h
      | some s1 =>
          rw [hstep] at h
          have h1 := svcStep_fifo hstep
          have h2 := ih h
          rw [wakes_cons, parks_cons]
          calc wakes [l] ++ wakes tr ++ s2.pending ++ s2.queue
              = wakes [l] ++ (wakes tr ++ s2.pending ++ s2.queue) := by
                simp [List.append_assoc]
            _ = wakes [l] ++ (s1.pending ++ s1.queue ++ parks tr) := by rw [h2]
            _ = (wakes [l] ++ s1.pending ++ s1.queue) ++ parks tr := by
                simp [List.append_assoc]
            _ = (s.pending ++ s.queue ++ parks [l]) ++ parks tr := by rw [h1]
            _ = s.pending ++ s.queue ++ (parks [l] ++ parks tr) := by
                simp [List.append_assoc]

/-- The nextId stamp never decreases along a run, and every parked
stamp of the trace lies between the initial and the final nextId. -/
theorem runSvcFrom_stamps {N : Nat} {tr : List SvcLabel} {s s2 : Svc}
    (h : runSvcFrom N s tr = some s2) :
    s.nextId ≤ s2.nextId ∧ ∀ w ∈ parks tr, s.nextId ≤ w ∧ w < s2.nextId := by
  induction tr generalizing s with
  | nil => cases h; simp [parks]
  | cons l tr ih =>
      simp only [runSvcFrom] at h
      cases hstep : svcStep N l s with
      | none => rw [hstep] at h; cases h
      | some s1 =>
          rw [hstep] at h
          obtain ⟨hmono, hmem⟩ := ih h
          have hnext : s.nextId ≤ s1.nextId ∧
              (∀ w ∈ parks [l], w = s.nextId) ∧
              (parks [l] ≠ [] → s.nextId < s1.nextId) := by
            cases l with
            | arriveGrant w =>
                simp only [svcStep] at hstep
                split at hstep
                · cases hstep; simp [parks]
                · cases hstep
            | park w =>
                simp only [svcStep] at hstep
                split at hstep
                · rename_i hc
                  cases hstep
                  simp [parks, hc.2.2]
                · cases hstep
            | finishNone =>
                simp only [svcStep] at hstep
                split at hstep
                · cases hstep; simp [parks]
                · cases hstep
            | finishWake w =>
                simp only [svcStep] at hstep
                split at hstep
                · cases hstep; simp [parks]
                · cases hstep
            | wake w =>
                simp only [svcStep] at hstep
                split at hstep
                · cases hstep; simp [parks]
                · cases hstep
          refine ⟨le_trans hnext.1 hmono, ?_⟩
          intro w hw
          rw [parks_cons, List.mem_append] at hw
          rcases hw with hw | hw
          · have hweq := hnext.2.1 w hw
            have hlt : s.nextId < s1.nextId := hnext.2.2 (by
              intro hnil
              rw [hnil] at hw
              cases hw)
            exact ⟨le_of_eq hweq.symm, by omega⟩
          · obtain ⟨h1, h2⟩ := hmem w hw
            exact ⟨le_trans hnext.1 h1, h2⟩

/-- The parked stamps of a run are strictly increasing: arrival order
equals stamp order. -/
theorem runSvcFrom_parks_sorted {N : Nat} {tr : List SvcLabel} {s s2 : Svc}
    (h : runSvcFrom N s tr = some s2) :
    (parks tr).Pairwise (· < ·) := by
  induction tr generalizing s with
  | nil => simp [parks]
  | cons l tr ih =>
      simp only [runSvcFrom] at h
      cases hstep : svcStep N l s with
      | none => rw [hstep] at h; cases h
      | some s1 =>
          rw [hstep] at h
          rw [parks_cons]
          cases l with
          | park w =>
              simp only [svcStep] at hstep
              split at hstep
              · rename_i hc
                cases hstep
                have hmem := (runSvcFrom_stamps h).2
                simp only [parks, List.filterMap]
                refine List.Pairwise.cons ?_ (ih h)
                intro v hv
                have := (hmem v hv).1
                simp only [hc.2.2]
                simp at this
                omega
              · cases hstep
          | arriveGrant w =>
              have : parks [SvcLabel.arriveGrant w] = [] := by simp [parks]
              rw [this, List.nil_append]
              exact ih h
          | finishNone =>
              have : parks [SvcLabel.finishNone] = [] := by simp [parks]
              rw [this, List.nil_append]
              exact ih h
          | finishWake w =>
              have : parks [SvcLabel.finishWake w] = [] := by simp [parks]
              rw [this, List.nil_append]
              exact ih h
          | wake w =>
              have : parks [SvcLabel.wake w] = [] := by simp [parks]
              rw [this, List.nil_append]
              exact ih h

/-- C4: FIFO grant order.  Along any run from the initial state the
sequence of waiters granted a slot, the wake transitions in order, is
an initial segment of the sequence of parked waiters in arrival order:
the parked-but-ungranted waiters are exactly the resolved-pending list
followed by the queue, appended behind the grants.  Together with the
strictly increasing arrival stamps this says a waiter parked earlier is
always granted, and its process started, before a waiter parked later,
and in particular before any request that arrived after it. -/
theorem c4_fifo_grant (N : Nat) (tr : List SvcLabel) (s : Svc)
    (h : runSvc N tr = some s) :
    wakes tr ++ s.pending ++ s.queue = parks tr ∧ (parks tr).Pairwise (· < ·) := by
  have h1 := runSvcFrom_fifo h
  have h2 := runSvcFrom_parks_sorted h
  simp only [svcInit] at h1
  refine ⟨?_, h2⟩
  simpa using h1

/-- C4 witness: limit two, requests 0 and 1 run, request 2 parks, a
later request 3 parks behind it; when the first process finishes,
request 2 is woken before request 3, matching arrival order. -/
theorem c4_fifo_grant_witness :
    runSvc 2 fifoDemoTrace = some ⟨2, [], [], 4⟩ ∧
      wakes fifoDemoTrace ++ (Svc.mk 2 [] [] 4).pending ++ (Svc.mk 2 [] [] 4).queue =
        parks fifoDemoTrace :=
  ⟨by decide,
    (c4_fifo_grant 2 fifoDemoTrace ⟨2, [], [], 4⟩ (by decide)).1⟩

/-- The close handler always clears the watchdog timer, whatever else
it does. -/
theorem bufStep_close_timerCleared (st : BufSt) (c : Option Int) :
    (bufStep st (.closeEv c)).timerCleared = true := by
  simp only [bufStep]
  split
  · rfl
  · split <;> simp [sendResp]

/-- A prefix of events containing no close, no timer fire and no spawn
error only accumulates the two output buffers. -/
theorem foldl_bufStep_clean (pre : List BufEvent) :
    ∀ st : BufSt, pre.countP isCloseBuf = 0 → pre.countP isTimerFire = 0 →
      pre.countP isSpawnErrBuf = 0 →
      List.foldl bufStep st pre =
        { st with output := outsFrom st.output pre, errorOut := errsFrom st.errorOut pre } := by
  induction pre with
  | nil => intro st _ _ _; cases st; simp [outsFrom, errsFrom]
  | cons e pre ih =>
      intro st hclose htimer hspawn
      cases e with
      | spawnErrorEv m => simp [List.countP_cons, isSpawnErrBuf] at hspawn
      | timerFire => simp [List.countP_cons, isTimerFire] at htimer
      | closeEv c => simp [List.countP_cons, isCloseBuf] at hclose
      | outData s =>
          simp only [List.countP_cons, isCloseBuf, isTimerFire, isSpawnErrBuf,
            if_false, Nat.add_zero, cond_false] at hclose htimer hspawn
          rw [List.foldl_cons]
          rw [ih _ hclose htimer hspawn]
          cases st
          simp [bufStep, outsFrom, errsFrom]
      | errData s =>
          simp only [List.countP_cons, isCloseBuf, isTimerFire, isSpawnErrBuf,
            if_false, Nat.add_zero, cond_false] at hclose htimer hspawn
          rw [List.foldl_cons]
          rw [ih _ hclose htimer hspawn]
          cases st
          simp [bufStep, outsFrom, errsFrom]

/-- A step on any event other than the timer firing never adds the 504
timeout response to the attempted sends. -/
theorem bufStep_attempts_no_timeout {st : BufSt} {e : BufEvent}
    (he : isTimerFire e = false) (h : BufResp.timeout504 ∉ st.attempts) :
    BufResp.timeout504 ∉ (bufStep st e).attempts := by
  cases e with
  | spawnErrorEv m =>
      simp only [bufStep]
      split <;> simp_all [sendResp]
  | timerFire => simp [isTimerFire] at he
  | outData s => simpa [bufStep] using h
  | errData s => simpa [bufStep] using h
  | closeEv c =>
      simp only [bufStep]
      split
      · simpa using h
      · split <;> simp_all [sendResp]

/-- A trace without a timer-fire event never attempts the 504 timeout
response. -/
theorem foldl_bufStep_no_timeout (tr : List BufEvent) :
    ∀ st : BufSt, tr.countP isTimerFire = 0 → BufResp.timeout504 ∉ st.attempts →
      BufResp.timeout504 ∉ (List.foldl bufStep st tr).attempts := by
  induction tr with
  | nil => intro st _ h; simpa using h
  | cons e tr ih =>
      intro st htimer h
      rw [List.foldl_cons]
      have he : isTimerFire e = false := by
        cases hb : isTimerFire e
        · rfl
        · exfalso
          rw [List.countP_cons, hb] at htimer
          simp at htimer
      have htimer2 : tr.countP isTimerFire = 0 := by
        rw [List.countP_cons] at htimer; omega
      exact ih _ htimer2 (bufStep_attempts_no_timeout he h)

/-- C3 amended: the watchdog property holds on the buffered path.  If
the timer of a spawned buffered request fires before the close event,
exactly one response is produced, the 504 timeout, the child is
killed, and no CLI error or success response is even attempted for
that request; if the process closes without the timer having fired,
the timer is cleared at close and no timeout response is ever
attempted.  The streaming path registers no watchdog at all, see the
counterexample. -/
theorem c3_buffered_watchdog (p1 p2 pre : List BufEvent) (c cb : Option Int)
    (h1c : p1.countP isCloseBuf = 0) (h1t : p1.countP isTimerFire = 0)
    (h1s : p1.countP isSpawnErrBuf = 0)
    (h2c : p2.countP isCloseBuf = 0) (h2t : p2.countP isTimerFire = 0)
    (h2s : p2.countP isSpawnErrBuf = 0)
    (_hpc : pre.countP isCloseBuf = 0) (hpt : pre.countP isTimerFire = 0) :
    ((runBuf (p1 ++ BufEvent.timerFire :: p2 ++ [BufEvent.closeEv c])).sent
        = [BufResp.timeout504] ∧
      (runBuf (p1 ++ BufEvent.timerFire :: p2 ++ [BufEvent.closeEv c])).attempts
        = [BufResp.timeout504] ∧
      (runBuf (p1 ++ BufEvent.timerFire :: p2 ++ [BufEvent.closeEv c])).killed = true) ∧
    (BufResp.timeout504 ∉ (runBuf (pre ++ [BufEvent.closeEv cb])).attempts ∧
      (runBuf (pre ++ [BufEvent.closeEv cb])).timerCleared = true) := by
  constructor
  · have hA := foldl_bufStep_clean p1 bufInit h1c h1t h1s
    have hsplit : runBuf (p1 ++ BufEvent.timerFire :: p2 ++ [BufEvent.closeEv c]) =
        bufStep (List.foldl bufStep
          (bufStep (List.foldl bufStep bufInit p1) BufEvent.timerFire) p2)
          (BufEvent.closeEv c) := by
      simp [runBuf, List.foldl_append]
    rw [hsplit, hA, foldl_bufStep_clean p2 _ h2c h2t h2s]
    simp [bufStep, sendResp, bufInit]
  · constructor
    · have hstep : runBuf (pre ++ [BufEvent.closeEv cb]) =
          bufStep (List.foldl bufStep bufInit pre) (BufEvent.closeEv cb) := by
        simp [runBuf, List.foldl_append]
      rw [hstep]
      refine bufStep_attempts_no_timeout rfl ?_
      exact foldl_bufStep_no_timeout pre bufInit hpt (by simp [bufInit])
    · have hstep : runBuf (pre ++ [BufEvent.closeEv cb]) =
          bufStep (List.foldl bufStep bufInit pre) (BufEvent.closeEv cb) := by
        simp [runBuf, List.foldl_append]
      rw [hstep]
      exact bufStep_close_timerCleared _ _

/-- C3 witness: a request whose timer fires after one stdout chunk
receives exactly the 504 and its child is killed; a request that
closes first never sees a timeout attempt. -/
theorem c3_buffered_watchdog_witness :
    (runBuf ([BufEvent.outData "late"] ++ BufEvent.timerFire :: [] ++
        [BufEvent.closeEv none])).sent = [BufResp.timeout504] ∧
    (runBuf ([BufEvent.outData "late"] ++ BufEvent.timerFire :: [] ++
        [BufEvent.closeEv none])).killed = true ∧
    BufResp.timeout504 ∉ (runBuf ([BufEvent.outData "hi"] ++
        [BufEvent.closeEv (some 0)])).attempts := by
  have h := c3_buffered_watchdog [BufEvent.outData "late"] [] [BufEvent.outData "hi"]
    none (some 0) (by decide) (by decide) (by decide) (by decide) (by decide)
    (by decide) (by decide) (by decide)
  exact ⟨h.1.1, h.1.2.2, h.2.1⟩

/-- C3 counterexample: the claim extends the watchdog to every request,
citing the streaming handler, but handleStreamChat registers no timer:
its event model has no timer event and no transition kills the child or
produces a timeout.  This run stands for a streaming request whose
process runs longer than the configured timeout: the handler behavior
is independent of elapsed time, the child is never killed and nothing
resembling a timeout result is attempted, only the data relay and the
terminal done event. -/
theorem c3_watchdog_counterexample :
    (runStr [StrEvent.outData "x\n", StrEvent.closeEv none]).killed = false ∧
    (runStr [StrEvent.outData "x\n", StrEvent.closeEv none]).attempts =
      [SSE.dataEv "x", SSE.doneEv] := by
  decide

/-- C6: buffered result mapping for a request that was not timed out.
Exit code zero produces the success response carrying the accumulated
stdout buffer trimmed; a nonzero exit code produces the CLI error
response carrying the accumulated stderr buffer; a spawn failure, the
error event followed by the close event with a null code, delivers the
spawn-failure response carrying the OS error message (the CLI error
send the close handler then attempts is discarded by the transport
because headers were already sent). -/
theorem c6_buffered_results (pre : List BufEvent) (cz : Int) (msg : String)
    (hc : pre.countP isCloseBuf = 0) (ht : pre.countP isTimerFire = 0)
    (hs : pre.countP isSpawnErrBuf = 0) :
    (runBuf (pre ++ [BufEvent.closeEv (some 0)])).sent
        = [BufResp.success (jsTrim (outsOf pre))] ∧
    (cz ≠ 0 → (runBuf (pre ++ [BufEvent.closeEv (some cz)])).sent
        = [BufResp.cliError (errsOf pre)]) ∧
    (runBuf [BufEvent.spawnErrorEv msg, BufEvent.closeEv none]).sent
        = [BufResp.spawnFail msg] := by
  refine ⟨?_, ?_, ?_⟩
  · have hstep : runBuf (pre ++ [BufEvent.closeEv (some 0)]) =
        bufStep (List.foldl bufStep bufInit pre) (BufEvent.closeEv (some 0)) := by
      simp [runBuf, List.foldl_append]
    rw [hstep, foldl_bufStep_clean pre bufInit hc ht hs]
    simp [bufStep, sendResp, bufInit, outsOf, errsOf]
  · intro hnz
    have hstep : runBuf (pre ++ [BufEvent.closeEv (some cz)]) =
        bufStep (List.foldl bufStep bufInit pre) (BufEvent.closeEv (some cz)) := by
      simp [runBuf, List.foldl_append]
    rw [hstep, foldl_bufStep_clean pre bufInit hc ht hs]
    simp [bufStep, sendResp, bufInit, outsOf, errsOf, hnz]
  · simp [runBuf, bufStep, sendResp, bufInit]

/-- C6 witness: a run with stdout two-sided whitespace is trimmed into
the success text; a run with stderr and exit code one yields the CLI
error with that stderr; the canonical spawn failure delivers the
spawn-failure response with the OS message. -/
theorem c6_buffered_results_witness :
    (runBuf ([BufEvent.outData "  ok "] ++ [BufEvent.closeEv (some 0)])).sent
        = [BufResp.success "ok"] ∧
    (runBuf ([BufEvent.errData "boom"] ++ [BufEvent.closeEv (some 1)])).sent
        = [BufResp.cliError "boom"] ∧
    (runBuf [BufEvent.spawnErrorEv "spawn gemini ENOENT", BufEvent.closeEv none]).sent
        = [BufResp.spawnFail "spawn gemini ENOENT"] := by
  have h1 := c6_buffered_results [BufEvent.outData "  ok "] 1 "spawn gemini ENOENT"
    (by decide) (by decide) (by decide)
  have h2 := c6_buffered_results [BufEvent.errData "boom"] 1 "spawn gemini ENOENT"
    (by decide) (by decide) (by decide)
  exact ⟨h1.1.trans (by decide), (h2.2.1 (by decide)).trans (by decide), h1.2.2⟩

/-- The remainder kept by the line scanner never contains a newline. -/
theorem scanLines_snd_no_newline (cs : List Char) :
    ∀ cur : List Char, '\n' ∉ cur → '\n' ∉ (scanLines cur cs).2 := by
  induction cs with
  | nil =>
      intro cur h
      simp only [scanLines]
      intro hm
      exact h (List.mem_reverse.mp hm)
  | cons c cs ih =>
      intro cur h
      simp only [scanLines]
      split
      · exact ih [] (by simp)
      · rename_i hc
        refine ih (c :: cur) ?_
        intro hm
        rcases List.mem_cons.mp hm with h1 | h1
        · exact hc h1.symm
        · exact h h1

/-- Scanning a newline-free block prepended to further input is the
same as scanning the further input with the block folded into the
current-line accumulator. -/
theorem scanLines_prepend (b : List Char) :
    ∀ cur cs : List Char, '\n' ∉ b →
      scanLines cur (b ++ cs) = scanLines (b.reverse ++ cur) cs := by
  induction b with
  | nil => intro cur cs _; simp
  | cons c b ih =>
      intro cur cs h
      have hc : ¬c = '\n' := fun hh => h (by rw [hh]; exact List.mem_cons_self _ _)
      rw [List.cons_append]
      simp only [scanLines, hc, if_false]
      rw [ih (c :: cur) cs (fun hm => h (List.mem_cons_of_mem _ hm))]
      congr 1
      simp [List.append_assoc]

/-- First component of scanning concatenated input: the lines of the
first part followed by the lines of the second part scanned with the
remainder of the first as accumulator. -/
theorem scanLines_append_fst (cs : List Char) :
    ∀ cur ds : List Char,
      (scanLines cur (cs ++ ds)).1 =
        (scanLines cur cs).1 ++ (scanLines (scanLines cur cs).2.reverse ds).1 := by
  induction cs with
  | nil => intro cur ds; simp [scanLines]
  | cons c cs ih =>
      intro cur ds
      by_cases hc : c = '\n'
      · subst hc
        rw [List.cons_append]
        simp only [scanLines, if_pos rfl]
        rw [ih [] ds]
        simp
      · rw [List.cons_append]
        simp only [scanLines, hc, if_false]
        exact ih (c :: cur) ds

/-- Second component of scanning concatenated input. -/
theorem scanLines_append_snd (cs : List Char) :
    ∀ cur ds : List Char,
      (scanLines cur (cs ++ ds)).2 =
        (scanLines (scanLines cur cs).2.reverse ds).2 := by
  induction cs with
  | nil => intro cur ds; simp [scanLines]
  | cons c cs ih =>
      intro cur ds
      by_cases hc : c = '\n'
      · subst hc
        rw [List.cons_append]
        simp only [scanLines, if_pos rfl]
        exact ih [] ds
      · rw [List.cons_append]
        simp only [scanLines, hc, if_false]
        exact ih (c :: cur) ds

/-- Writing extracted lines never touches the buffer, the channel
flags or the kill flag. -/
theorem writeDataLines_fields (ls : List String) :
    ∀ st : StrSt,
      (writeDataLines ls st).buffer = st.buffer ∧
      (writeDataLines ls st).ended = st.ended ∧
      (writeDataLines ls st).disconnected = st.disconnected ∧
      (writeDataLines ls st).killed = st.killed := by
  induction ls with
  | nil => intro st; simp [writeDataLines]
  | cons l ls ih =>
      intro st
      simp only [writeDataLines]
      split
      · simpa [sseWrite] using ih (sseWrite (.dataEv l) st)
      · exact ih st

/-- Every truthy extracted line is attempted as a data event, in
order. -/
theorem writeDataLines_attempts (ls : List String) :
    ∀ st : StrSt,
      (writeDataLines ls st).attempts =
        st.attempts ++ (ls.filter jsTruthy).map SSE.dataEv := by
  induction ls with
  | nil => intro st; simp [writeDataLines]
  | cons l ls ih =>
      intro st
      simp only [writeDataLines, List.filter_cons]
      cases hl : jsTruthy l with
      | true => simp [hl, ih, sseWrite, List.append_assoc]
      | false => simp [hl, ih]

/-- On an open connected channel every truthy extracted line is
delivered as a data event, in order. -/
theorem writeDataLines_chunks_open (ls : List String) :
    ∀ st : StrSt, st.ended = false → st.disconnected = false →
      (writeDataLines ls st).chunks =
        st.chunks ++ (ls.filter jsTruthy).map SSE.dataEv := by
  induction ls with
  | nil => intro st _ _; simp [writeDataLines]
  | cons l ls ih =>
      intro st he hd
      simp only [writeDataLines, List.filter_cons]
      cases hl : jsTruthy l with
      | true =>
          have hw := ih (sseWrite (.dataEv l) st) (by simp [sseWrite, he]) (by simp [sseWrite, hd])
          simp only [hl, if_true, List.map_cons]
          rw [hw]
          simp [sseWrite, he, hd]
      | false => simp [hl, ih st he hd]

/-- After the client disconnected, written lines are not delivered. -/
theorem writeDataLines_chunks_disc (ls : List String) :
    ∀ st : StrSt, st.disconnected = true →
      (writeDataLines ls st).chunks = st.chunks := by
  induction ls with
  | nil => intro st _; simp [writeDataLines]
  | cons l ls ih =>
      intro st hd
      simp only [writeDataLines]
      split
      · have hw := ih (sseWrite (.dataEv l) st) (by simp [sseWrite, hd])
        simpa [sseWrite, hd] using hw
      · exact ih st hd

/-- A streaming prefix with no close, no spawn error and no disconnect
relays exactly the truthy trimmed complete lines of the concatenated
stdout bytes and holds the partial remainder in the buffer. -/
theorem foldl_strStep_clean (pre : List StrEvent) :
    ∀ st : StrSt, pre.countP isCloseStr = 0 → pre.countP isSpawnErrStr = 0 →
      pre.countP isReqCloseStr = 0 → '\n' ∉ st.buffer →
      st.ended = false → st.disconnected = false →
      (List.foldl strStep st pre).buffer = (scanLines st.buffer.reverse (outBytes pre)).2 ∧
      (List.foldl strStep st pre).chunks = st.chunks ++
        (((scanLines st.buffer.reverse (outBytes pre)).1.filter jsTruthy).map SSE.dataEv) ∧
      (List.foldl strStep st pre).attempts = st.attempts ++
        (((scanLines st.buffer.reverse (outBytes pre)).1.filter jsTruthy).map SSE.dataEv) ∧
      (List.foldl strStep st pre).ended = false ∧
      (List.foldl strStep st pre).disconnected = false := by
  induction pre with
  | nil =>
      intro st _ _ _ _ he hd
      simp [outBytes, scanLines, he, hd]
  | cons e pre ih =>
      intro st h1 h2 h3 hb he hd
      cases e with
      | closeEv c => simp [List.countP_cons, isCloseStr] at h1
      | spawnErrEv m => simp [List.countP_cons, isSpawnErrStr] at h2
      | reqCloseEv => simp [List.countP_cons, isReqCloseStr] at h3
      | errData s =>
          simp only [List.countP_cons, isCloseStr, isSpawnErrStr, isReqCloseStr,
            if_false, Nat.add_zero, cond_false] at h1 h2 h3
          rw [List.foldl_cons]
          have hstep : strStep st (.errData s) = st := rfl
          rw [hstep]
          have hout : outBytes (StrEvent.errData s :: pre) = outBytes pre := by
            simp [outBytes]
          rw [hout]
          exact ih st h1 h2 h3 hb he hd
      | outData s =>
          simp only [List.countP_cons, isCloseStr, isSpawnErrStr, isReqCloseStr,
            if_false, Nat.add_zero, cond_false] at h1 h2 h3
          rw [List.foldl_cons]
          have hpre : scanLines [] (st.buffer ++ s.data) =
              scanLines st.buffer.reverse s.data := by
            rw [scanLines_prepend st.buffer [] s.data hb, List.append_nil]
          have hstep : strStep st (.outData s) =
              writeDataLines (scanLines st.buffer.reverse s.data).1
                { st with buffer := (scanLines st.buffer.reverse s.data).2 } := by
            simp only [strStep, hpre]
          rw [hstep]
          set st1 := writeDataLines (scanLines st.buffer.reverse s.data).1
            { st with buffer := (scanLines st.buffer.reverse s.data).2 } with hst1
          obtain ⟨hfb, hfe, hfd, hfk⟩ :=
            writeDataLines_fields (scanLines st.buffer.reverse s.data).1
              { st with buffer := (scanLines st.buffer.reverse s.data).2 }
          have hbuf : st1.buffer = (scanLines st.buffer.reverse s.data).2 := by
            rw [hst1]; rw [hfb]
          have hb1 : '\n' ∉ st1.buffer := by
            rw [hbuf]
            exact scanLines_snd_no_newline s.data st.buffer.reverse
              (fun hm => hb (List.mem_reverse.mp hm))
          have he1 : st1.ended = false := by rw [hst1]; rw [hfe]; exact he
          have hd1 : st1.disconnected = false := by rw [hst1]; rw [hfd]; exact hd
          have hchunks : st1.chunks = st.chunks ++
              (((scanLines st.buffer.reverse s.data).1.filter jsTruthy).map SSE.dataEv) := by
            rw [hst1]
            exact writeDataLines_chunks_open _ _ (by simp [he]) (by simp [hd])
          have hatt : st1.attempts = st.attempts ++
              (((scanLines st.buffer.reverse s.data).1.filter jsTruthy).map SSE.dataEv) := by
            rw [hst1]
            rw [writeDataLines_attempts]
          have hout : outBytes (StrEvent.outData s :: pre) = s.data ++ outBytes pre := by
            simp [outBytes]
          obtain ⟨ib, ic, ia, ie, id'⟩ := ih st1 h1 h2 h3 hb1 he1 hd1
          have hfst := scanLines_append_fst s.data st.buffer.reverse (outBytes pre)
          have hsnd := scanLines_append_snd s.data st.buffer.reverse (outBytes pre)
          refine ⟨?_, ?_, ?_, ie, id'⟩
          · rw [ib, hbuf, hout, hsnd]
          · rw [ic, hchunks, hbuf, hout, hfst]
            simp [List.filter_append, List.map_append, List.append_assoc]
          · rw [ia, hatt, hbuf, hout, hfst]
            simp [List.filter_append, List.map_append, List.append_assoc]

/-- C8 amended: line relay on the streaming path.  For any sequence of
stdout chunks of a connected, successfully spawned streaming request,
every complete newline-delimited line of the concatenated bytes that
trims to a nonempty string is delivered, trimmed, as exactly one data
event in arrival order; a complete line that trims to the empty string
is skipped by the truthiness check of the handler; partial trailing
content is held in the buffer and is never emitted before the terminal
event. -/
theorem c8_stream_line_relay (pre : List StrEvent) (c : Option Int)
    (h1 : pre.countP isCloseStr = 0) (h2 : pre.countP isSpawnErrStr = 0)
    (h3 : pre.countP isReqCloseStr = 0) :
    (runStr (pre ++ [StrEvent.closeEv c])).chunks =
      (((scanLines [] (outBytes pre)).1.filter jsTruthy).map SSE.dataEv) ++ [SSE.doneEv] ∧
    (runStr (pre ++ [StrEvent.closeEv c])).buffer = (scanLines [] (outBytes pre)).2 := by
  have hstep : runStr (pre ++ [StrEvent.closeEv c]) =
      strStep (List.foldl strStep strInit pre) (StrEvent.closeEv c) := by
    simp [runStr, List.foldl_append]
  obtain ⟨ib, ic, ia, ie, id'⟩ := foldl_strStep_clean pre strInit h1 h2 h3
    (by simp [strInit]) rfl rfl
  rw [hstep]
  have hrev : (strInit.buffer.reverse : List Char) = [] := rfl
  rw [hrev] at ib ic
  constructor
  · show (sseEnd (sseWrite SSE.doneEv (List.foldl strStep strInit pre))).chunks = _
    simp only [sseEnd, sseWrite, ie, id', ic]
    simp [strInit]
  · show (sseEnd (sseWrite SSE.doneEv (List.foldl strStep strInit pre))).buffer = _
    simp only [sseEnd, sseWrite]
    exact ib

/-- C8 witness: the scenario of the specification, stdout bytes a, b
and a trailing c with exit code zero: the relay delivers data a, data
b and the terminal done event while c stays in the buffer, never
emitted. -/
theorem c8_stream_line_relay_witness :
    (runStr ([StrEvent.outData "a\nb\nc"] ++ [StrEvent.closeEv (some 0)])).chunks =
      [SSE.dataEv "a", SSE.dataEv "b", SSE.doneEv] ∧
    (runStr ([StrEvent.outData "a\nb\nc"] ++ [StrEvent.closeEv (some 0)])).buffer = ['c'] := by
  have h := c8_stream_line_relay [StrEvent.outData "a\nb\nc"] (some 0)
    (by decide) (by decide) (by decide)
  exact ⟨h.1.trans (by decide), h.2.trans (by decide)⟩

/-- C8 counterexample: the claim states that a complete line trimming
to the empty string is also emitted as a data event; the handler guards
each write with the truthiness of the trimmed line, so the empty middle
line of these bytes produces no event at all. -/
theorem c8_empty_line_counterexample :
    (runStr [StrEvent.outData "x\n\n y \n", StrEvent.closeEv (some 0)]).chunks =
      [SSE.dataEv "x", SSE.dataEv "y", SSE.doneEv] ∧
    SSE.dataEv "" ∉ (runStr [StrEvent.outData "x\n\n y \n", StrEvent.closeEv (some 0)]).chunks := by
  decide

/-- C7: caller-facing terminal structure of the streaming path for a
client that stays connected.  A request whose child spawned delivers
some sequence of data events followed by exactly one terminal done
event and nothing after it; a request whose spawn fails delivers a
single terminal error event carrying the failure detail and no done
event after it, the done write attempted by the later close handler
being discarded because the channel was already ended. -/
theorem c7_stream_terminal_events (pre : List StrEvent) (c : Option Int) (msg : String)
    (h1 : pre.countP isCloseStr = 0) (h2 : pre.countP isSpawnErrStr = 0)
    (h3 : pre.countP isReqCloseStr = 0) :
    (∃ ds : List String,
      (runStr (pre ++ [StrEvent.closeEv c])).chunks = ds.map SSE.dataEv ++ [SSE.doneEv]) ∧
    (runStr [StrEvent.spawnErrEv msg, StrEvent.closeEv c]).chunks = [SSE.errorEvSSE msg] := by
  constructor
  · refine ⟨(scanLines [] (outBytes pre)).1.filter jsTruthy, ?_⟩
    have h := (c8_stream_line_relay pre c h1 h2 h3).1
    simpa using h
  · simp [runStr, strStep, sseWrite, sseEnd, strInit]

/-- C7 witness: a connected request with one complete line delivers
data then done; the canonical spawn failure delivers the single error
event. -/
theorem c7_stream_terminal_events_witness :
    (∃ ds : List String,
      (runStr ([StrEvent.outData "hello\n"] ++ [StrEvent.closeEv (some 0)])).chunks =
        ds.map SSE.dataEv ++ [SSE.doneEv]) ∧
    (runStr [StrEvent.spawnErrEv "spawn gemini ENOENT", StrEvent.closeEv none]).chunks =
      [SSE.errorEvSSE "spawn gemini ENOENT"] := by
  have h := c7_stream_terminal_events [StrEvent.outData "hello\n"] none
    "spawn gemini ENOENT" (by decide) (by decide) (by decide)
  refine ⟨⟨["hello"], by decide⟩, h.2⟩

/-- A step taken after the kill flag is set keeps it set. -/
theorem strStep_killed_mono (e : StrEvent) (st : StrSt) (hk : st.killed = true) :
    (strStep st e).killed = true := by
  cases e with
  | spawnErrEv m => simpa [strStep, sseEnd, sseWrite] using hk
  | outData s =>
      have h := (writeDataLines_fields (scanLines [] (st.buffer ++ s.data)).1
        { st with buffer := (scanLines [] (st.buffer ++ s.data)).2 }).2.2.2
      simp only [strStep]
      rw [h]
      exact hk
  | errData s => exact hk
  | closeEv c => simpa [strStep, sseEnd, sseWrite] using hk
  | reqCloseEv => simp [strStep, hk]

/-- A step taken after the disconnect keeps the disconnect flag and
delivers nothing. -/
theorem strStep_disc (e : StrEvent) (st : StrSt) (hd : st.disconnected = true) :
    (strStep st e).disconnected = true ∧ (strStep st e).chunks = st.chunks := by
  cases e with
  | spawnErrEv m => simp [strStep, sseEnd, sseWrite, hd]
  | outData s =>
      have hf := (writeDataLines_fields (scanLines [] (st.buffer ++ s.data)).1
        { st with buffer := (scanLines [] (st.buffer ++ s.data)).2 }).2.2.1
      have hc := writeDataLines_chunks_disc (scanLines [] (st.buffer ++ s.data)).1
        { st with buffer := (scanLines [] (st.buffer ++ s.data)).2 } (by simpa using hd)
      simp only [strStep]
      rw [hf, hc]
      exact ⟨hd, rfl⟩
  | errData s => exact ⟨hd, rfl⟩
  | closeEv c => simp [strStep, sseEnd, sseWrite, hd]
  | reqCloseEv =>
      simp only [strStep]
      split <;> simp [hd]

/-- After a disconnect the remaining events never deliver anything and
never clear the kill. -/
theorem foldl_strStep_disc (post : List StrEvent) :
    ∀ st : StrSt, st.disconnected = true → st.killed = true →
      (List.foldl strStep st post).chunks = st.chunks ∧
      (List.foldl strStep st post).killed = true := by
  induction post with
  | nil => intro st _ hk; exact ⟨rfl, hk⟩
  | cons e post ih =>
      intro st hd hk
      rw [List.foldl_cons]
      obtain ⟨hd1, hc1⟩ := strStep_disc e st hd
      obtain ⟨hc2, hk2⟩ := ih (strStep st e) hd1 (strStep_killed_mono e st hk)
      exact ⟨hc2.trans hc1, hk2⟩

/-- C9 amended: when the client disconnects, the streaming handler
kills the child, idempotently thanks to the killed guard, and no
further event is delivered to the client: everything delivered is
what was delivered before the disconnect.  The handler does still
attempt one more write, the terminal done event of the close handler
that follows the kill; the destroyed connection discards it, see the
counterexample for the attempt. -/
theorem c9_disconnect_kills (pre post : List StrEvent) :
    (runStr (pre ++ StrEvent.reqCloseEv :: post)).killed = true ∧
    (runStr (pre ++ StrEvent.reqCloseEv :: post)).chunks = (runStr pre).chunks := by
  have hsplit : runStr (pre ++ StrEvent.reqCloseEv :: post) =
      List.foldl strStep (strStep (runStr pre) StrEvent.reqCloseEv) post := by
    simp [runStr, List.foldl_append]
  have hdisc : (strStep (runStr pre) StrEvent.reqCloseEv).disconnected = true := by
    simp only [strStep]
    split <;> rfl
  have hkill : (strStep (runStr pre) StrEvent.reqCloseEv).killed = true := by
    simp only [strStep]
    split
    · rename_i hk; simpa using hk
    · rfl
  have hchunk : (strStep (runStr pre) StrEvent.reqCloseEv).chunks = (runStr pre).chunks := by
    simp only [strStep]
    split <;> rfl
  obtain ⟨hc, hk⟩ := foldl_strStep_disc post _ hdisc hkill
  rw [hsplit]
  exact ⟨hk, hc.trans hchunk⟩

/-- C9 counterexample: the claim states that no further events are
attempted on the channel after the disconnect is observed; but when the
killed child then closes, the close handler still attempts the terminal
done write.  In this run the disconnect is the first event, so every
recorded attempt happens after it: the attempts list is nonempty while
nothing is delivered. -/
theorem c9_attempt_after_disconnect_counterexample :
    (runStr [StrEvent.reqCloseEv, StrEvent.closeEv none]).killed = true ∧
    (runStr [StrEvent.reqCloseEv, StrEvent.closeEv none]).attempts = [SSE.doneEv] ∧
    (runStr [StrEvent.reqCloseEv, StrEvent.closeEv none]).chunks = [] := by
  decide

end GeminiGateway
